/-
Verification of the crumbs repository's statistics aggregation engine,
commit-message parser and sentiment enrichment against their
specification.  The Python sources are shallowly embedded: dataclasses
become structures, `datetime` values become absolute UTC seconds paired
with the carried UTC-offset seconds, Python `int` becomes `Int`,
Python `float` arithmetic on exact second counts becomes `ℚ`, and the
memoizing `StatsCalculator` becomes explicit state passing.
-/
import Mathlib

namespace Crumbs

/-- An aware `datetime`: `utcSec` is the absolute time as seconds since
the Unix epoch, `offSec` the UTC offset carried by the value.  The
wall-clock (local) reading used by `strftime` and `.hour` is
`utcSec + offSec`; comparison and subtraction of aware datetimes use
`utcSec` alone. -/
structure Timestamp where
  utcSec : Int
  offSec : Int
deriving DecidableEq, Repr

/-- Wall-clock seconds of the carried local representation. -/
def Timestamp.localSec (t : Timestamp) : Int :=
  t.utcSec + t.offSec

/-- Civil (proleptic Gregorian) date `(year, month, day)` from a count
of days since 1970-01-01, the standard era-based algorithm. -/
def civilFromDays (z : Int) : Int × Int × Int :=
  let z2 := z + 719468
  let era := z2.fdiv 146097
  let doe := z2 - era * 146097
  let yoe := (doe - doe / 1460 + doe / 36524 - doe / 146096) / 365
  let y := yoe + era * 400
  let doy := doe - (365 * yoe + yoe / 4 - yoe / 100)
  let mp := (5 * doy + 2) / 153
  let d := doy - (153 * mp + 2) / 5 + 1
  let m := mp + (if mp < 10 then 3 else -9)
  (y + (if m ≤ 2 then 1 else 0), m, d)

/-- The key produced by `timestamp.strftime("%Y-%m-%d")`: the civil date
of the timestamp's wall-clock reading (the `YYYY-MM-DD` rendering is
injective on civil dates, so the date triple is the key). -/
def Timestamp.dayKey (t : Timestamp) : Int × Int × Int :=
  civilFromDays (t.localSec.fdiv 86400)

/-- The value of `timestamp.hour`: hour of day of the wall-clock reading. -/
def Timestamp.hour (t : Timestamp) : Int :=
  t.localSec.emod 86400 / 3600

/-- Modelled from the spec: the `YYYY-MM-DD` key of the timestamp after
conversion to UTC, as the claim about UTC bucketing reads it. -/
def utcDayKey (t : Timestamp) : Int × Int × Int :=
  civilFromDays (t.utcSec.fdiv 86400)

/-- Modelled from the spec: the hour of day of the timestamp after
conversion to UTC. -/
def utcHour (t : Timestamp) : Int :=
  t.utcSec.emod 86400 / 3600

/-- The `CommitType` enumeration from `crumbs/models/dataclasses.py`. -/
inductive CommitType where
  | feat | fix | docs | style | refactor | perf
  | test | build | ci | chore | revert | unknown
deriving DecidableEq, Repr, Fintype

/-- The `CommitStats` dataclass: per-commit change metrics (Python ints). -/
structure CommitStats where
  lines_added : Int := 0
  lines_deleted : Int := 0
  files_changed : Int := 0
deriving DecidableEq, Repr

/-- The `total_changes` property. -/
def CommitStats.total_changes (s : CommitStats) : Int :=
  s.lines_added + s.lines_deleted

/-- The `size_bucket` property of `CommitStats`. -/
def CommitStats.size_bucket (s : CommitStats) : String :=
  let total := s.total_changes
  if total ≤ 10 then "small"
  else if total ≤ 50 then "medium"
  else if total ≤ 200 then "large"
  else "xlarge"

/-- The `Commit` dataclass. -/
structure Commit where
  sha : String
  message : List Char
  author : String
  author_email : String
  timestamp : Timestamp
  stats : CommitStats := {}
  commit_type : CommitType := .unknown
  scope : Option (List Char) := none
  subject : Option (List Char) := none
  body : Option (List Char) := none
  co_authors : List String := []
  phase : Option Int := none
  is_conventional : Bool := false
deriving DecidableEq, Repr

/-- The `RepositoryStats` dataclass.  The count dictionaries are
modelled as key-to-count functions (a key absent from the Python dict
reads as count 0, matching `defaultdict(int)` lookups). -/
structure RepositoryStats where
  total_commits : Nat := 0
  total_lines_added : Int := 0
  total_lines_deleted : Int := 0
  total_files_changed : Int := 0
  commits_by_type : CommitType → Int := fun _ => 0
  commits_by_author : String → Int := fun _ => 0
  commits_by_day : Int × Int × Int → Int := fun _ => 0
  commits_by_hour : Int → Int := fun _ => 0
  commits_by_phase : Int → Int := fun _ => 0
  size_distribution : String → Int := fun _ => 0
  conventional_count : Int := 0
  co_authored_count : Int := 0
  phases_detected : List Int := []
  first_commit_date : Option Timestamp := none
  last_commit_date : Option Timestamp := none
  avg_commit_interval_hours : ℚ := 0
  work_sessions : Nat := 0

/-- Sort key used by `calculate`: `sorted(self.commits, key=lambda c: c.timestamp)`,
where aware datetimes compare by absolute time. -/
def tsv (c : Commit) : Int :=
  c.timestamp.utcSec

/-- The ordering relation of the timestamp sort. -/
def commitLE (a b : Commit) : Prop :=
  tsv a ≤ tsv b

instance : DecidableRel commitLE :=
  fun a b => inferInstanceAs (Decidable (tsv a ≤ tsv b))

instance : IsTotal Commit commitLE :=
  ⟨fun a b => Int.le_total (tsv a) (tsv b)⟩

instance : IsTrans Commit commitLE :=
  ⟨fun _ _ _ h1 h2 => le_trans h1 h2⟩

/-- The stable timestamp sort performed at the start of `calculate`. -/
def sortCommits (l : List Commit) : List Commit :=
  List.insertionSort commitLE l

/-- Increment one key of a `defaultdict(int)`-style counter. -/
def bump {K : Type} [DecidableEq K] (f : K → Int) (k : K) : K → Int :=
  fun x => if x = k then f x + 1 else f x

/-- Accumulator state of the single pass in `StatsCalculator.calculate`
(lines 45–93 of `stats.py`). -/
structure Acc where
  commits_by_type : CommitType → Int
  commits_by_author : String → Int
  commits_by_day : Int × Int × Int → Int
  commits_by_hour : Int → Int
  commits_by_phase : Int → Int
  size_distribution : String → Int
  total_lines_added : Int
  total_lines_deleted : Int
  total_files_changed : Int
  conventional_count : Int
  co_authored_count : Int
  phases_detected : List Int

/-- The initial accumulator (all counters empty/zero). -/
def Acc.init : Acc where
  commits_by_type := fun _ => 0
  commits_by_author := fun _ => 0
  commits_by_day := fun _ => 0
  commits_by_hour := fun _ => 0
  commits_by_phase := fun _ => 0
  size_distribution := fun _ => 0
  total_lines_added := 0
  total_lines_deleted := 0
  total_files_changed := 0
  conventional_count := 0
  co_authored_count := 0
  phases_detected := []

/-- One iteration of the `for commit in sorted_commits` loop. -/
def Acc.step (a : Acc) (c : Commit) : Acc where
  commits_by_type := bump a.commits_by_type c.commit_type
  commits_by_author := bump a.commits_by_author c.author
  commits_by_day := bump a.commits_by_day c.timestamp.dayKey
  commits_by_hour := bump a.commits_by_hour c.timestamp.hour
  commits_by_phase :=
    match c.phase with
    | some p => bump a.commits_by_phase p
    | none => a.commits_by_phase
  size_distribution := bump a.size_distribution c.stats.size_bucket
  total_lines_added := a.total_lines_added + c.stats.lines_added
  total_lines_deleted := a.total_lines_deleted + c.stats.lines_deleted
  total_files_changed := a.total_files_changed + c.stats.files_changed
  conventional_count := a.conventional_count + (if c.is_conventional then 1 else 0)
  co_authored_count := a.co_authored_count + (if c.co_authors = [] then 0 else 1)
  phases_detected :=
    match c.phase with
    | some p => if p ∈ a.phases_detected then a.phases_detected else p :: a.phases_detected
    | none => a.phases_detected

/-- Consecutive forward timestamp deltas in seconds
(`delta.total_seconds()` over the loop in `_calculate_avg_interval`). -/
def deltaSeconds : List Commit → List Int
  | a :: b :: rest => (tsv b - tsv a) :: deltaSeconds (b :: rest)
  | _ => []

/-- The `_calculate_avg_interval` method over already-sorted commits. -/
def calculate_avg_interval (sc : List Commit) : ℚ :=
  if sc.length < 2 then 0
  else
    let total_seconds : ℚ := ((deltaSeconds sc).sum : Int)
    let avg_seconds := total_seconds / ((sc.length : ℚ) - 1)
    avg_seconds / 3600

/-- The `_detect_work_sessions` method over already-sorted commits.
`timedelta(hours=2.0)` is 7200 seconds; the comparison is strict. -/
def detect_work_sessions (sc : List Commit) : Nat :=
  match sc with
  | [] => 0
  | _ => 1 + (deltaSeconds sc).countP (fun d => 7200 < d)

/-- The body of `StatsCalculator.calculate` once the cache misses
(lines 38–119 of `stats.py`). -/
def computeStats (commits : List Commit) : RepositoryStats :=
  if commits = [] then {}
  else
    let sorted_commits := sortCommits commits
    let a := sorted_commits.foldl Acc.step Acc.init
    { total_commits := sorted_commits.length
      total_lines_added := a.total_lines_added
      total_lines_deleted := a.total_lines_deleted
      total_files_changed := a.total_files_changed
      commits_by_type := a.commits_by_type
      commits_by_author := a.commits_by_author
      commits_by_day := a.commits_by_day
      commits_by_hour := a.commits_by_hour
      commits_by_phase := a.commits_by_phase
      size_distribution := a.size_distribution
      conventional_count := a.conventional_count
      co_authored_count := a.co_authored_count
      phases_detected := List.insertionSort (· ≤ ·) a.phases_detected
      first_commit_date := sorted_commits.head?.map (·.timestamp)
      last_commit_date := sorted_commits.getLast?.map (·.timestamp)
      avg_commit_interval_hours := calculate_avg_interval sorted_commits
      work_sessions := detect_work_sessions sorted_commits }

/-- The `StatsCalculator` instance state: the stored commit list and the
`_stats` memo field. -/
structure StatsCalculator where
  commits : List Commit
  cachedStats : Option RepositoryStats

/-- `StatsCalculator.__init__`: copies the list, cache starts empty. -/
def StatsCalculator.new (commits : List Commit) : StatsCalculator :=
  ⟨commits, none⟩

/-- The `calculate` method: returns the cached snapshot if present,
otherwise computes, stores and returns it.  The returned pair is
(result, instance state after the call). -/
def StatsCalculator.calculate (s : StatsCalculator) : RepositoryStats × StatsCalculator :=
  match s.cachedStats with
  | some st => (st, s)
  | none =>
      let st := computeStats s.commits
      (st, { s with cachedStats := some st })

/-- The statistics obtained from a fresh calculator: construct a
`StatsCalculator` on the list and call `calculate()` once. -/
def calcOf (commits : List Commit) : RepositoryStats :=
  ((StatsCalculator.new commits).calculate).1

/-- The multiset of commit timestamps arranged in ascending order, the
spec's "ascending timestamp order" view. -/
def sortedStamps (l : List Commit) : List Int :=
  List.insertionSort (· ≤ ·) (l.map tsv)

/-- Consecutive differences of a list of integers. -/
def intDeltas : List Int → List Int
  | a :: b :: rest => (b - a) :: intDeltas (b :: rest)
  | _ => []

/-- Number of consecutive gaps strictly above the 2-hour threshold. -/
def gapCount (xs : List Int) : Nat :=
  (intDeltas xs).countP (fun d => 7200 < d)

/-- Minimum commit timestamp (0 for an empty list, unused there). -/
def minStamp (l : List Commit) : Int :=
  match l.map tsv with
  | [] => 0
  | x :: xs => xs.foldl min x

/-- Maximum commit timestamp (0 for an empty list, unused there). -/
def maxStamp (l : List Commit) : Int :=
  match l.map tsv with
  | [] => 0
  | x :: xs => xs.foldl max x

/-- Equality of aware datetimes as Python's `==` compares them: by
absolute time, ignoring the carried offset. -/
def tsEq (a b : Timestamp) : Prop :=
  a.utcSec = b.utcSec

/-- Pointwise `tsEq` on optional datetimes. -/
def optTsEq : Option Timestamp → Option Timestamp → Prop
  | none, none => True
  | some a, some b => tsEq a b
  | _, _ => False

/-- Field-by-field equality of two `RepositoryStats`, with the count
dictionaries compared as key-to-count functions and datetimes compared
as Python's `==` does. -/
def statsEqv (r s : RepositoryStats) : Prop :=
  r.total_commits = s.total_commits ∧
  r.total_lines_added = s.total_lines_added ∧
  r.total_lines_deleted = s.total_lines_deleted ∧
  r.total_files_changed = s.total_files_changed ∧
  r.commits_by_type = s.commits_by_type ∧
  r.commits_by_author = s.commits_by_author ∧
  r.commits_by_day = s.commits_by_day ∧
  r.commits_by_hour = s.commits_by_hour ∧
  r.commits_by_phase = s.commits_by_phase ∧
  r.size_distribution = s.size_distribution ∧
  r.conventional_count = s.conventional_count ∧
  r.co_authored_count = s.co_authored_count ∧
  r.phases_detected = s.phases_detected ∧
  optTsEq r.first_commit_date s.first_commit_date ∧
  optTsEq r.last_commit_date s.last_commit_date ∧
  r.avg_commit_interval_hours = s.avg_commit_interval_hours ∧
  r.work_sessions = s.work_sessions

/-- Python `str.strip` whitespace test (ASCII whitespace). -/
def isSpace (c : Char) : Bool :=
  c = ' ' || c = '\t' || c = '\n' || c = '\r' || c = '\x0B' || c = '\x0C'

/-- Python `str.strip`: drop leading and trailing whitespace. -/
def strip (l : List Char) : List Char :=
  ((l.dropWhile isSpace).reverse.dropWhile isSpace).reverse

/-- Python `str.split("\n")`. -/
def splitNl : List Char → List (List Char)
  | [] => [[]]
  | c :: rest =>
    if c = '\n' then [] :: splitNl rest
    else
      match splitNl rest with
      | [] => [[c]]
      | h :: t => (c :: h) :: t

/-- The character class `[a-z]` under `re.IGNORECASE`. -/
def isAsciiLetter (c : Char) : Bool :=
  ('a' ≤ c && c ≤ 'z') || ('A' ≤ c && c ≤ 'Z')

/-- Matching of `\s*(?P<subject>.+)$` against the text after the colon
of the conventional pattern: the greedy whitespace run backtracks one
character when it would leave nothing for the subject. -/
def subjectAfterColon (afterColon : List Char) : Option (List Char) :=
  let rest := afterColon.dropWhile isSpace
  if rest.isEmpty then (afterColon.getLast?).map (fun c => [c])
  else some rest

/-- Matching of `CONVENTIONAL_PATTERN` against a newline-free first
line, returning (type token, optional scope, raw subject). -/
def matchConventional (line : List Char) :
    Option (List Char × Option (List Char) × List Char) :=
  let ty := line.takeWhile isAsciiLetter
  let rest := line.dropWhile isAsciiLetter
  if ty.isEmpty then none
  else
    match rest with
    | ':' :: r2 => (subjectAfterColon r2).map (fun subj => (ty, none, subj))
    | '(' :: r2 =>
        let sc := r2.takeWhile (fun c => c != ')')
        match r2.dropWhile (fun c => c != ')') with
        | ')' :: ':' :: r4 =>
            if sc.isEmpty then none
            else (subjectAfterColon r4).map (fun subj => (ty, some sc, subj))
        | _ => none
    | _ => none

/-- The `TYPE_MAP` lookup (`dict.get` with `UNKNOWN` default). -/
def TYPE_MAP (s : List Char) : CommitType :=
  if s = "feat".toList then .feat
  else if s = "fix".toList then .fix
  else if s = "docs".toList then .docs
  else if s = "style".toList then .style
  else if s = "refactor".toList then .refactor
  else if s = "perf".toList then .perf
  else if s = "test".toList then .test
  else if s = "build".toList then .build
  else if s = "ci".toList then .ci
  else if s = "chore".toList then .chore
  else if s = "revert".toList then .revert
  else .unknown

/-- The `ParsedMessage` dataclass of `crumbs/git/parser.py`. -/
structure ParsedMessage where
  commit_type : CommitType
  scope : Option (List Char)
  subject : List Char
  body : Option (List Char)
  is_conventional : Bool
deriving DecidableEq, Repr

/-- The all-default parse returned for empty or whitespace-only input. -/
def defaultParsed : ParsedMessage :=
  ⟨.unknown, none, [], none, false⟩

/-- Matching of `CO_AUTHOR_PATTERN` (`^Co-Authored-By:\s*(.+)$`,
case-insensitive) against one newline-free line. -/
def isCoAuthorLine (line : List Char) : Bool :=
  decide ((line.map Char.toLower).take 15 = "co-authored-by:".toList ∧ 15 < line.length)

/-- The body-collection loop of `parse`: skip leading blank lines, stop
at the first co-author trailer, collect the rest. -/
def bodyLoop : List (List Char) → Bool → List (List Char)
  | [], _ => []
  | line :: rest, started =>
    if !started && (strip line).isEmpty then bodyLoop rest started
    else if isCoAuthorLine line then []
    else line :: bodyLoop rest true

/-- Removal of trailing blank lines from the collected body lines. -/
def dropTrailingBlank (ls : List (List Char)) : List (List Char) :=
  (ls.reverse.dropWhile (fun l => (strip l).isEmpty)).reverse

/-- Body extraction from the lines after the first. -/
def extractBody (restLines : List (List Char)) : Option (List Char) :=
  if restLines.isEmpty then none
  else
    let body_lines := dropTrailingBlank (bodyLoop restLines false)
    if body_lines.isEmpty then none
    else some (List.intercalate ['\n'] body_lines)

/-- `CommitMessageParser.parse`. -/
def parse (message : List Char) : ParsedMessage :=
  if (strip message).isEmpty then defaultParsed
  else
    let lines := splitNl (strip message)
    let first_line := strip (lines.headD [])
    match matchConventional first_line with
    | some (ty, sc, subjRaw) =>
        let ct := TYPE_MAP (ty.map Char.toLower)
        { commit_type := ct
          scope := sc
          subject := strip subjRaw
          body := extractBody lines.tail
          is_conventional := decide (ct ≠ CommitType.unknown) }
    | none =>
        { commit_type := .unknown
          scope := none
          subject := first_line
          body := extractBody lines.tail
          is_conventional := false }

/-- The literal first line of a message, exactly as given: everything
before the first newline. -/
def rawFirstLine (message : List Char) : List Char :=
  message.takeWhile (fun c => c != '\n')

/-- Modelled from the spec: the `SentimentResult` dataclass is imported
from `crumbs.models.dataclasses` but its body is absent from the
sources; per the spec its constructor normalizes any sentiment label
outside {positive, neutral, negative} to `neutral` and clamps
`confidence` to [0.0, 1.0]. -/
structure SentimentResult where
  sha : String
  sentiment : String
  confidence : ℚ
  tone : String
  summary : String
deriving DecidableEq, Repr

/-- Modelled from the spec: construction of a `SentimentResult`,
applying the normalization and clamping of the missing dataclass. -/
def mkSentimentResult (sha sentiment : String) (confidence : ℚ)
    (tone summary : String) : SentimentResult where
  sha := sha
  sentiment :=
    if sentiment = "positive" ∨ sentiment = "neutral" ∨ sentiment = "negative"
    then sentiment else "neutral"
  confidence := max 0 (min 1 confidence)
  tone := tone
  summary := summary

/-- One decoded item of the service's JSON response. -/
structure SentimentItem where
  sha : String
  sentiment : String
  confidence : ℚ
  tone : String
  summary : String

/-- The success path of `_parse_response`: one `SentimentResult` per
decoded item. -/
def parseItems (items : List SentimentItem) : List SentimentResult :=
  items.map fun it =>
    mkSentimentResult it.sha it.sentiment it.confidence it.tone it.summary

/-- The failure path of `_parse_response`: neutral placeholder results,
one per commit sha. -/
def fallbackResults (shas : List String) : List SentimentResult :=
  shas.map fun s => mkSentimentResult s "neutral" 0 "unknown" "Analysis failed"

/-- A concrete commit with all-default parsed fields at the given
absolute time and UTC offset, for concrete evaluations. -/
def exCommit (utc off : Int) : Commit where
  sha := "c0"
  message := []
  author := "alice"
  author_email := "alice@example.com"
  timestamp := ⟨utc, off⟩

/-- Concrete commit with distinctive fields, for concrete evaluations. -/
def exA : Commit :=
  { exCommit 0 0 with
    commit_type := .feat, phase := some 1, is_conventional := true,
    stats := ⟨5, 3, 1⟩ }

/-- Second concrete commit with distinctive fields. -/
def exB : Commit :=
  { exCommit 90000 0 with
    sha := "c1", author := "bob", commit_type := .fix,
    co_authors := ["carol"], stats := ⟨100, 50, 2⟩ }

/-- The spec's session-detection example: commits at offsets
0m, 30m, 210m, 240m from a base time. -/
def exSessions : List Commit :=
  [exCommit 0 0, exCommit 1800 0, exCommit 12600 0, exCommit 14400 0]

/-- The spec's average-interval example: three commits at hours 0, 2, 4. -/
def exAvg : List Commit :=
  [exCommit 0 0, exCommit 7200 0, exCommit 14400 0]

/-- A commit whose timestamp carries a +02:00 offset: absolute time
1970-01-01 23:00 UTC, wall clock 1970-01-02 01:00. -/
def exOffset : Commit :=
  exCommit 82800 7200

theorem foldl_step_type (sc : List Commit) : ∀ (a : Acc) (t : CommitType),
    (sc.foldl Acc.step a).commits_by_type t
      = a.commits_by_type t + (sc.countP (fun c => c.commit_type = t) : Int) := by
  induction sc with
  | nil => intro a t; simp
  | cons c sc ih =>
    intro a t
    simp only [List.foldl_cons, List.countP_cons, ih, Acc.step, bump]
    by_cases h : t = c.commit_type
    · subst h; simp; omega
    · have h2 : ¬(c.commit_type = t) := fun hh => h hh.symm
      simp [h, h2]

theorem foldl_step_author (sc : List Commit) : ∀ (a : Acc) (k : String),
    (sc.foldl Acc.step a).commits_by_author k
      = a.commits_by_author k + (sc.countP (fun c => c.author = k) : Int) := by
  induction sc with
  | nil => intro a k; simp
  | cons c sc ih =>
    intro a k
    simp only [List.foldl_cons, List.countP_cons, ih, Acc.step, bump]
    by_cases h : k = c.author
    · subst h; simp; omega
    · have h2 : ¬(c.author = k) := fun hh => h hh.symm
      simp [h, h2]

theorem foldl_step_day (sc : List Commit) : ∀ (a : Acc) (k : Int × Int × Int),
    (sc.foldl Acc.step a).commits_by_day k
      = a.commits_by_day k + (sc.countP (fun c => c.timestamp.dayKey = k) : Int) := by
  induction sc with
  | nil => intro a k; simp
  | cons c sc ih =>
    intro a k
    simp only [List.foldl_cons, List.countP_cons, ih, Acc.step, bump]
    by_cases h : k = c.timestamp.dayKey
    · subst h; simp; omega
    · have h2 : ¬(c.timestamp.dayKey = k) := fun hh => h hh.symm
      simp [h, h2]

theorem foldl_step_hour (sc : List Commit) : ∀ (a : Acc) (k : Int),
    (sc.foldl Acc.step a).commits_by_hour k
      = a.commits_by_hour k + (sc.countP (fun c => c.timestamp.hour = k) : Int) := by
  induction sc with
  | nil => intro a k; simp
  | cons c sc ih =>
    intro a k
    simp only [List.foldl_cons, List.countP_cons, ih, Acc.step, bump]
    by_cases h : k = c.timestamp.hour
    · subst h; simp; omega
    · have h2 : ¬(c.timestamp.hour = k) := fun hh => h hh.symm
      simp [h, h2]

theorem foldl_step_phase (sc : List Commit) : ∀ (a : Acc) (p : Int),
    (sc.foldl Acc.step a).commits_by_phase p
      = a.commits_by_phase p + (sc.countP (fun c => c.phase = some p) : Int) := by
  induction sc with
  | nil => intro a p; simp
  | cons c sc ih =>
    intro a p
    simp only [List.foldl_cons, List.countP_cons, ih]
    cases hphp : c.phase with
    | none => simp [Acc.step, hphp]
    | some q =>
      simp only [Acc.step, hphp, bump]
      by_cases h : p = q
      · subst h; simp; omega
      · have h2 : ¬(some q = some p) := by simp [Ne.symm h]
        simp [h, h2]

theorem foldl_step_size (sc : List Commit) : ∀ (a : Acc) (k : String),
    (sc.foldl Acc.step a).size_distribution k
      = a.size_distribution k + (sc.countP (fun c => c.stats.size_bucket = k) : Int) := by
  induction sc with
  | nil => intro a k; simp
  | cons c sc ih =>
    intro a k
    simp only [List.foldl_cons, List.countP_cons, ih, Acc.step, bump]
    by_cases h : k = c.stats.size_bucket
    · subst h; simp; omega
    · have h2 : ¬(c.stats.size_bucket = k) := fun hh => h hh.symm
      simp [h, h2]

theorem foldl_step_added (sc : List Commit) : ∀ (a : Acc),
    (sc.foldl Acc.step a).total_lines_added
      = a.total_lines_added + (sc.map (fun c => c.stats.lines_added)).sum := by
  induction sc with
  | nil => intro a; simp
  | cons c sc ih =>
    intro a
    simp only [List.foldl_cons, List.map_cons, List.sum_cons, ih, Acc.step]
    ring

theorem foldl_step_deleted (sc : List Commit) : ∀ (a : Acc),
    (sc.foldl Acc.step a).total_lines_deleted
      = a.total_lines_deleted + (sc.map (fun c => c.stats.lines_deleted)).sum := by
  induction sc with
  | nil => intro a; simp
  | cons c sc ih =>
    intro a
    simp only [List.foldl_cons, List.map_cons, List.sum_cons, ih, Acc.step]
    ring

theorem foldl_step_files (sc : List Commit) : ∀ (a : Acc),
    (sc.foldl Acc.step a).total_files_changed
      = a.total_files_changed + (sc.map (fun c => c.stats.files_changed)).sum := by
  induction sc with
  | nil => intro a; simp
  | cons c sc ih =>
    intro a
    simp only [List.foldl_cons, List.map_cons, List.sum_cons, ih, Acc.step]
    ring

theorem foldl_step_conv (sc : List Commit) : ∀ (a : Acc),
    (sc.foldl Acc.step a).conventional_count
      = a.conventional_count + (sc.countP (fun c => c.is_conventional) : Int) := by
  induction sc with
  | nil => intro a; simp
  | cons c sc ih =>
    intro a
    simp only [List.foldl_cons, List.countP_cons, ih, Acc.step]
    cases hc : c.is_conventional <;> (simp [hc]; try omega)

theorem foldl_step_co (sc : List Commit) : ∀ (a : Acc),
    (sc.foldl Acc.step a).co_authored_count
      = a.co_authored_count + (sc.countP (fun c => ¬(c.co_authors = [])) : Int) := by
  induction sc with
  | nil => intro a; simp
  | cons c sc ih =>
    intro a
    simp only [List.foldl_cons, List.countP_cons, ih, Acc.step]
    by_cases hc : c.co_authors = [] <;> (simp [hc]; try omega)

theorem foldl_step_phases_mem (sc : List Commit) : ∀ (a : Acc) (p : Int),
    p ∈ (sc.foldl Acc.step a).phases_detected
      ↔ p ∈ a.phases_detected ∨ ∃ c ∈ sc, c.phase = some p := by
  induction sc with
  | nil => intro a p; simp
  | cons c sc ih =>
    intro a p
    simp only [List.foldl_cons, ih, List.mem_cons]
    cases hphp : c.phase with
    | none =>
      simp only [Acc.step, hphp]
      constructor
      · rintro (h | ⟨d, hd, hdp⟩)
        · exact Or.inl h
        · exact Or.inr ⟨d, Or.inr hd, hdp⟩
      · rintro (h | ⟨d, (rfl | hd), hdp⟩)
        · exact Or.inl h
        · rw [hphp] at hdp; cases hdp
        · exact Or.inr ⟨d, hd, hdp⟩
    | some q =>
      simp only [Acc.step, hphp]
      by_cases hq : q ∈ a.phases_detected
      · simp only [if_pos hq]
        constructor
        · rintro (h | ⟨d, hd, hdp⟩)
          · exact Or.inl h
          · exact Or.inr ⟨d, Or.inr hd, hdp⟩
        · rintro (h | ⟨d, (rfl | hd), hdp⟩)
          · exact Or.inl h
          · rw [hphp] at hdp
            cases hdp
            exact Or.inl hq
          · exact Or.inr ⟨d, hd, hdp⟩
      · simp only [if_neg hq, List.mem_cons]
        constructor
        · rintro ((rfl | h) | ⟨d, hd, hdp⟩)
          · exact Or.inr ⟨c, Or.inl rfl, hphp⟩
          · exact Or.inl h
          · exact Or.inr ⟨d, Or.inr hd, hdp⟩
        · rintro (h | ⟨d, (rfl | hd), hdp⟩)
          · exact Or.inl (Or.inr h)
          · rw [hphp] at hdp
            cases hdp
            exact Or.inl (Or.inl rfl)
          · exact Or.inr ⟨d, hd, hdp⟩

theorem foldl_step_phases_nodup (sc : List Commit) : ∀ (a : Acc),
    a.phases_detected.Nodup → (sc.foldl Acc.step a).phases_detected.Nodup := by
  induction sc with
  | nil => intro a h; simpa using h
  | cons c sc ih =>
    intro a h
    simp only [List.foldl_cons]
    apply ih
    cases hphp : c.phase with
    | none => simpa [Acc.step, hphp] using h
    | some q =>
      simp only [Acc.step, hphp]
      by_cases hq : q ∈ a.phases_detected
      · simpa [if_pos hq] using h
      · simp [if_neg hq, h, hq]

theorem sortCommits_perm (l : List Commit) : List.Perm (sortCommits l) l :=
  List.perm_insertionSort commitLE l

theorem sortCommits_sorted (l : List Commit) : List.Sorted commitLE (sortCommits l) :=
  List.sorted_insertionSort commitLE l

theorem sortedStamps_perm (l : List Commit) : List.Perm (sortedStamps l) (l.map tsv) :=
  List.perm_insertionSort _ _

theorem sortedStamps_sorted (l : List Commit) :
    List.Sorted (· ≤ ·) (sortedStamps l) :=
  List.sorted_insertionSort _ _

theorem map_tsv_sortCommits (l : List Commit) :
    (sortCommits l).map tsv = sortedStamps l := by
  apply List.eq_of_perm_of_sorted (r := ((· ≤ ·) : Int → Int → Prop))
  · exact ((sortCommits_perm l).map tsv).trans (sortedStamps_perm l).symm
  · exact List.Pairwise.map tsv (fun a b h => h) (sortCommits_sorted l)
  · exact sortedStamps_sorted l

theorem sortedStamps_congr {l1 l2 : List Commit} (h : List.Perm l1 l2) :
    sortedStamps l1 = sortedStamps l2 := by
  apply List.eq_of_perm_of_sorted (r := ((· ≤ ·) : Int → Int → Prop))
  · exact (sortedStamps_perm l1).trans ((h.map tsv).trans (sortedStamps_perm l2).symm)
  · exact sortedStamps_sorted l1
  · exact sortedStamps_sorted l2

theorem deltaSeconds_eq (sc : List Commit) :
    deltaSeconds sc = intDeltas (sc.map tsv) := by
  induction sc with
  | nil => rfl
  | cons a sc ih =>
    cases sc with
    | nil => rfl
    | cons b rest => simpa [deltaSeconds, intDeltas] using ih

theorem calcOf_eq_computeStats (l : List Commit) : calcOf l = computeStats l := rfl

theorem calcOf_total_commits (l : List Commit) :
    (calcOf l).total_commits = l.length := by
  by_cases h : l = []
  · subst h; rfl
  · rw [calcOf_eq_computeStats]
    simp only [computeStats, if_neg h]
    exact (sortCommits_perm l).length_eq

theorem calcOf_commits_by_type (l : List Commit) (t : CommitType) :
    (calcOf l).commits_by_type t
      = (l.countP (fun c => c.commit_type = t) : Int) := by
  by_cases h : l = []
  · subst h; rfl
  · rw [calcOf_eq_computeStats]
    simp only [computeStats, if_neg h]
    rw [foldl_step_type]
    simp only [Acc.init, zero_add]
    exact_mod_cast congrArg Nat.cast ((sortCommits_perm l).countP_eq _)

theorem calcOf_commits_by_author (l : List Commit) (k : String) :
    (calcOf l).commits_by_author k
      = (l.countP (fun c => c.author = k) : Int) := by
  by_cases h : l = []
  · subst h; rfl
  · rw [calcOf_eq_computeStats]
    simp only [computeStats, if_neg h]
    rw [foldl_step_author]
    simp only [Acc.init, zero_add]
    exact_mod_cast congrArg Nat.cast ((sortCommits_perm l).countP_eq _)

theorem calcOf_commits_by_day (l : List Commit) (k : Int × Int × Int) :
    (calcOf l).commits_by_day k
      = (l.countP (fun c => c.timestamp.dayKey = k) : Int) := by
  by_cases h : l = []
  · subst h; rfl
  · rw [calcOf_eq_computeStats]
    simp only [computeStats, if_neg h]
    rw [foldl_step_day]
    simp only [Acc.init, zero_add]
    exact_mod_cast congrArg Nat.cast ((sortCommits_perm l).countP_eq _)

theorem calcOf_commits_by_hour (l : List Commit) (k : Int) :
    (calcOf l).commits_by_hour k
      = (l.countP (fun c => c.timestamp.hour = k) : Int) := by
  by_cases h : l = []
  · subst h; rfl
  · rw [calcOf_eq_computeStats]
    simp only [computeStats, if_neg h]
    rw [foldl_step_hour]
    simp only [Acc.init, zero_add]
    exact_mod_cast congrArg Nat.cast ((sortCommits_perm l).countP_eq _)

theorem calcOf_commits_by_phase (l : List Commit) (p : Int) :
    (calcOf l).commits_by_phase p
      = (l.countP (fun c => c.phase = some p) : Int) := by
  by_cases h : l = []
  · subst h; rfl
  · rw [calcOf_eq_computeStats]
    simp only [computeStats, if_neg h]
    rw [foldl_step_phase]
    simp only [Acc.init, zero_add]
    exact_mod_cast congrArg Nat.cast ((sortCommits_perm l).countP_eq _)

theorem calcOf_size_distribution (l : List Commit) (k : String) :
    (calcOf l).size_distribution k
      = (l.countP (fun c => c.stats.size_bucket = k) : Int) := by
  by_cases h : l = []
  · subst h; rfl
  · rw [calcOf_eq_computeStats]
    simp only [computeStats, if_neg h]
    rw [foldl_step_size]
    simp only [Acc.init, zero_add]
    exact_mod_cast congrArg Nat.cast ((sortCommits_perm l).countP_eq _)

theorem calcOf_total_lines_added (l : List Commit) :
    (calcOf l).total_lines_added = (l.map (fun c => c.stats.lines_added)).sum := by
  by_cases h : l = []
  · subst h; rfl
  · rw [calcOf_eq_computeStats]
    simp only [computeStats, if_neg h]
    rw [foldl_step_added]
    simp only [Acc.init, zero_add]
    exact ((sortCommits_perm l).map _).sum_eq

theorem calcOf_total_lines_deleted (l : List Commit) :
    (calcOf l).total_lines_deleted = (l.map (fun c => c.stats.lines_deleted)).sum := by
  by_cases h : l = []
  · subst h; rfl
  · rw [calcOf_eq_computeStats]
    simp only [computeStats, if_neg h]
    rw [foldl_step_deleted]
    simp only [Acc.init, zero_add]
    exact ((sortCommits_perm l).map _).sum_eq

theorem calcOf_total_files_changed (l : List Commit) :
    (calcOf l).total_files_changed = (l.map (fun c => c.stats.files_changed)).sum := by
  by_cases h : l = []
  · subst h; rfl
  · rw [calcOf_eq_computeStats]
    simp only [computeStats, if_neg h]
    rw [foldl_step_files]
    simp only [Acc.init, zero_add]
    exact ((sortCommits_perm l).map _).sum_eq

theorem calcOf_conventional_count (l : List Commit) :
    (calcOf l).conventional_count
      = (l.countP (fun c => c.is_conventional) : Int) := by
  by_cases h : l = []
  · subst h; rfl
  · rw [calcOf_eq_computeStats]
    simp only [computeStats, if_neg h]
    rw [foldl_step_conv]
    simp only [Acc.init, zero_add]
    exact_mod_cast congrArg Nat.cast ((sortCommits_perm l).countP_eq _)

theorem calcOf_co_authored_count (l : List Commit) :
    (calcOf l).co_authored_count
      = (l.countP (fun c => ¬(c.co_authors = [])) : Int) := by
  by_cases h : l = []
  · subst h; rfl
  · rw [calcOf_eq_computeStats]
    simp only [computeStats, if_neg h]
    rw [foldl_step_co]
    simp only [Acc.init, zero_add]
    exact_mod_cast congrArg Nat.cast ((sortCommits_perm l).countP_eq _)

theorem calcOf_phases_mem (l : List Commit) (p : Int) :
    p ∈ (calcOf l).phases_detected ↔ ∃ c ∈ l, c.phase = some p := by
  by_cases h : l = []
  · subst h
    simp [calcOf_eq_computeStats, computeStats]
  · rw [calcOf_eq_computeStats]
    simp only [computeStats, if_neg h]
    rw [List.mem_insertionSort, foldl_step_phases_mem]
    simp only [Acc.init, List.not_mem_nil, false_or]
    constructor
    · rintro ⟨c, hc, hcp⟩
      exact ⟨c, (sortCommits_perm l).mem_iff.mp hc, hcp⟩
    · rintro ⟨c, hc, hcp⟩
      exact ⟨c, (sortCommits_perm l).mem_iff.mpr hc, hcp⟩

theorem calcOf_phases_sorted (l : List Commit) :
    List.Sorted (· ≤ ·) (calcOf l).phases_detected := by
  by_cases h : l = []
  · subst h; simp [calcOf_eq_computeStats, computeStats]
  · rw [calcOf_eq_computeStats]
    simp only [computeStats, if_neg h]
    exact List.sorted_insertionSort _ _

theorem calcOf_phases_nodup (l : List Commit) :
    (calcOf l).phases_detected.Nodup := by
  by_cases h : l = []
  · subst h; simp [calcOf_eq_computeStats, computeStats]
  · rw [calcOf_eq_computeStats]
    simp only [computeStats, if_neg h]
    exact (List.perm_insertionSort _ _).nodup_iff.mpr
      (foldl_step_phases_nodup _ _ List.nodup_nil)

theorem calcOf_phases_congr {l1 l2 : List Commit} (h : List.Perm l1 l2) :
    (calcOf l1).phases_detected = (calcOf l2).phases_detected := by
  apply List.eq_of_perm_of_sorted (r := ((· ≤ ·) : Int → Int → Prop))
  · refine (List.perm_ext_iff_of_nodup (calcOf_phases_nodup l1) (calcOf_phases_nodup l2)).mpr ?_
    intro p
    rw [calcOf_phases_mem, calcOf_phases_mem]
    constructor
    · rintro ⟨c, hc, hcp⟩; exact ⟨c, h.mem_iff.mp hc, hcp⟩
    · rintro ⟨c, hc, hcp⟩; exact ⟨c, h.mem_iff.mpr hc, hcp⟩
  · exact calcOf_phases_sorted l1
  · exact calcOf_phases_sorted l2

theorem calcOf_first_utc (l : List Commit) :
    ((calcOf l).first_commit_date).map Timestamp.utcSec = (sortedStamps l).head? := by
  by_cases h : l = []
  · subst h; rfl
  · rw [calcOf_eq_computeStats]
    simp only [computeStats, if_neg h]
    rw [← map_tsv_sortCommits, List.head?_map, Option.map_map]
    rfl

theorem calcOf_last_utc (l : List Commit) :
    ((calcOf l).last_commit_date).map Timestamp.utcSec = (sortedStamps l).getLast? := by
  by_cases h : l = []
  · subst h; rfl
  · rw [calcOf_eq_computeStats]
    simp only [computeStats, if_neg h]
    rw [← map_tsv_sortCommits, List.getLast?_map, Option.map_map]
    rfl

theorem optTsEq_of_map_utc {o1 o2 : Option Timestamp}
    (h : o1.map Timestamp.utcSec = o2.map Timestamp.utcSec) : optTsEq o1 o2 := by
  cases o1 <;> cases o2 <;> simp_all [optTsEq, tsEq]

theorem calcOf_avg (l : List Commit) :
    (calcOf l).avg_commit_interval_hours
      = if l.length < 2 then 0
        else ((intDeltas (sortedStamps l)).sum : ℚ) / ((l.length : ℚ) - 1) / 3600 := by
  by_cases h : l = []
  · subst h; rfl
  · rw [calcOf_eq_computeStats]
    simp only [computeStats, if_neg h]
    simp only [calculate_avg_interval]
    rw [(sortCommits_perm l).length_eq, deltaSeconds_eq, map_tsv_sortCommits]

theorem detect_work_sessions_ne_nil (sc : List Commit) (h : sc ≠ []) :
    detect_work_sessions sc = 1 + (deltaSeconds sc).countP (fun d => 7200 < d) := by
  cases sc with
  | nil => exact absurd rfl h
  | cons c rest => rfl

theorem calcOf_sessions (l : List Commit) :
    (calcOf l).work_sessions
      = if l = [] then 0 else 1 + gapCount (sortedStamps l) := by
  by_cases h : l = []
  · subst h; rfl
  · rw [calcOf_eq_computeStats]
    simp only [computeStats, if_neg h]
    have hsc : sortCommits l ≠ [] := by
      intro hh
      apply h
      rw [← List.length_eq_zero, ← (sortCommits_perm l).length_eq, hh]
      rfl
    rw [detect_work_sessions_ne_nil _ hsc, deltaSeconds_eq, map_tsv_sortCommits]
    rfl

/-- C1: constructing a `StatsCalculator` from any permutation of a
commit list and calling `calculate()` yields a `RepositoryStats` equal
field by field to the one computed from the original list, with the
mappings compared as key-to-count functions. -/
theorem calculate_order_independent (l1 l2 : List Commit) (h : List.Perm l1 l2) :
    statsEqv (calcOf l1) (calcOf l2) := by
  have hss := sortedStamps_congr h
  have hlen := h.length_eq
  refine ⟨?_, ?_, ?_, ?_, ?_, ?_, ?_, ?_, ?_, ?_, ?_, ?_, ?_, ?_, ?_, ?_, ?_⟩
  · rw [calcOf_total_commits, calcOf_total_commits, hlen]
  · rw [calcOf_total_lines_added, calcOf_total_lines_added]
    exact (h.map _).sum_eq
  · rw [calcOf_total_lines_deleted, calcOf_total_lines_deleted]
    exact (h.map _).sum_eq
  · rw [calcOf_total_files_changed, calcOf_total_files_changed]
    exact (h.map _).sum_eq
  · funext t
    rw [calcOf_commits_by_type, calcOf_commits_by_type, List.Perm.countP_eq _ h]
  · funext k
    rw [calcOf_commits_by_author, calcOf_commits_by_author, List.Perm.countP_eq _ h]
  · funext k
    rw [calcOf_commits_by_day, calcOf_commits_by_day, List.Perm.countP_eq _ h]
  · funext k
    rw [calcOf_commits_by_hour, calcOf_commits_by_hour, List.Perm.countP_eq _ h]
  · funext p
    rw [calcOf_commits_by_phase, calcOf_commits_by_phase, List.Perm.countP_eq _ h]
  · funext k
    rw [calcOf_size_distribution, calcOf_size_distribution, List.Perm.countP_eq _ h]
  · rw [calcOf_conventional_count, calcOf_conventional_count, List.Perm.countP_eq _ h]
  · rw [calcOf_co_authored_count, calcOf_co_authored_count, List.Perm.countP_eq _ h]
  · exact calcOf_phases_congr h
  · exact optTsEq_of_map_utc (by rw [calcOf_first_utc, calcOf_first_utc, hss])
  · exact optTsEq_of_map_utc (by rw [calcOf_last_utc, calcOf_last_utc, hss])
  · rw [calcOf_avg, calcOf_avg, hss, hlen]
  · rw [calcOf_sessions, calcOf_sessions, hss]
    by_cases h1 : l1 = []
    · have h2 : l2 = [] := by
        rw [← List.length_eq_zero, ← hlen, h1]
        rfl
      rw [if_pos h1, if_pos h2]
    · have h2 : l2 ≠ [] := by
        intro hh
        apply h1
        rw [← List.length_eq_zero, hlen, hh]
        rfl
      rw [if_neg h1, if_neg h2]

/-- Witness for C1 at a concrete two-commit list and its swap. -/
theorem calculate_order_independent_witness :
    List.Perm [exA, exB] [exB, exA] ∧ statsEqv (calcOf [exA, exB]) (calcOf [exB, exA]) :=
  ⟨List.Perm.swap exB exA [], calculate_order_independent _ _ (List.Perm.swap exB exA [])⟩

/-- C3: zero work sessions for the empty list; otherwise one plus the
number of consecutive pairs, in ascending timestamp order, whose gap
strictly exceeds 2.0 hours. -/
theorem work_sessions_spec :
    (calcOf []).work_sessions = 0 ∧
    ∀ l : List Commit, l ≠ [] →
      (calcOf l).work_sessions = 1 + gapCount (sortedStamps l) := by
  constructor
  · rfl
  · intro l h
    rw [calcOf_sessions, if_neg h]

/-- Witness for C3: the spec's {0m, 30m, 210m, 240m} example gives
exactly 2 sessions (only the 3-hour gap exceeds the threshold). -/
theorem work_sessions_spec_witness :
    exSessions ≠ [] ∧ (calcOf exSessions).work_sessions = 2 := by
  refine ⟨by decide, ?_⟩
  rw [work_sessions_spec.2 exSessions (by decide)]
  decide

/-- C4: for fewer than two commits the average interval is 0.0; for
N ≥ 2 commits it is the sum of the N−1 consecutive forward deltas in
seconds, in ascending timestamp order, divided by N−1, then by 3600. -/
theorem avg_interval_spec (l : List Commit) :
    (l.length < 2 → (calcOf l).avg_commit_interval_hours = 0) ∧
    (2 ≤ l.length →
      (calcOf l).avg_commit_interval_hours
        = ((intDeltas (sortedStamps l)).sum : ℚ) / ((l.length : ℚ) - 1) / 3600) := by
  constructor
  · intro h
    rw [calcOf_avg, if_pos h]
  · intro h
    rw [calcOf_avg, if_neg (by omega)]

/-- Witness for C4: three commits at hours 0, 2, 4 give an average
interval of exactly 2.0 hours. -/
theorem avg_interval_spec_witness :
    2 ≤ exAvg.length ∧ (calcOf exAvg).avg_commit_interval_hours = 2 := by
  refine ⟨by decide, ?_⟩
  rw [(avg_interval_spec exAvg).2 (by decide)]
  have h : (intDeltas (sortedStamps exAvg)).sum = 14400 := by decide
  have hl : exAvg.length = 3 := by decide
  rw [h, hl]
  norm_num

/-- C6: a `calculate()` call that returned result `r` and left the
instance in state `s2` is followed by a second call that returns the
same `r` and leaves the state unchanged. -/
theorem calculate_idempotent_cached (s : StatsCalculator) (r : RepositoryStats)
    (s2 : StatsCalculator) (h : s.calculate = (r, s2)) :
    s2.calculate = (r, s2) := by
  cases hc : s.cachedStats with
  | some st =>
    have hs : s.calculate = (st, s) := by
      simp [StatsCalculator.calculate, hc]
    rw [hs] at h
    injection h with h1 h2
    subst h1
    subst h2
    simp [StatsCalculator.calculate, hc]
  | none =>
    have hs : s.calculate
        = (computeStats s.commits, { s with cachedStats := some (computeStats s.commits) }) := by
      simp [StatsCalculator.calculate, hc]
    rw [hs] at h
    injection h with h1 h2
    subst h1
    subst h2
    simp [StatsCalculator.calculate]

/-- Witness for C6 on a fresh calculator over a concrete commit list. -/
theorem calculate_idempotent_cached_witness :
    ((StatsCalculator.new [exA, exB]).calculate.2).calculate
      = ((StatsCalculator.new [exA, exB]).calculate.1,
         (StatsCalculator.new [exA, exB]).calculate.2) :=
  calculate_idempotent_cached (StatsCalculator.new [exA, exB])
    (StatsCalculator.new [exA, exB]).calculate.1
    (StatsCalculator.new [exA, exB]).calculate.2 rfl

/-- C7: the size bucket is small iff total changes ≤ 10, medium iff in
(10, 50], large iff in (50, 200], and xlarge iff above 200; each
boundary value falls in the lower bucket. -/
theorem size_bucket_boundaries (s : CommitStats) :
    (s.size_bucket = "small" ↔ s.total_changes ≤ 10) ∧
    (s.size_bucket = "medium" ↔ 10 < s.total_changes ∧ s.total_changes ≤ 50) ∧
    (s.size_bucket = "large" ↔ 50 < s.total_changes ∧ s.total_changes ≤ 200) ∧
    (s.size_bucket = "xlarge" ↔ 200 < s.total_changes) := by
  simp only [CommitStats.size_bucket]
  split_ifs with h1 h2 h3 <;> refine ⟨?_, ?_, ?_, ?_⟩ <;> simp <;> omega

theorem sum_countP_type (l : List Commit) :
    (∑ t : CommitType, (l.countP (fun c => c.commit_type = t) : Int)) = l.length := by
  induction l with
  | nil => simp
  | cons c l ih =>
    simp only [List.countP_cons, List.length_cons]
    push_cast
    rw [Finset.sum_add_distrib, ih]
    have h1 : (∑ t : CommitType, if c.commit_type = t then (1 : Int) else 0) = 1 := by
      rw [Finset.sum_ite_eq]
      simp
    have h2 : (∑ t : CommitType,
        ((if (fun cc => decide (cc.commit_type = t)) c then (1 : Nat) else 0 : Nat) : Int))
          = ∑ t : CommitType, if c.commit_type = t then (1 : Int) else 0 := by
      refine Finset.sum_congr rfl fun t _ => ?_
      by_cases hh : c.commit_type = t <;> simp [hh]
    push_cast at h2 ⊢
    rw [h2, h1]

theorem size_bucket_cases (s : CommitStats) :
    s.size_bucket = "small" ∨ s.size_bucket = "medium"
      ∨ s.size_bucket = "large" ∨ s.size_bucket = "xlarge" := by
  simp only [CommitStats.size_bucket]
  split_ifs <;> simp

theorem sum_size_buckets (l : List Commit) :
    (l.countP (fun c => c.stats.size_bucket = "small") : Int)
      + (l.countP (fun c => c.stats.size_bucket = "medium") : Int)
      + (l.countP (fun c => c.stats.size_bucket = "large") : Int)
      + (l.countP (fun c => c.stats.size_bucket = "xlarge") : Int) = l.length := by
  induction l with
  | nil => simp
  | cons c l ih =>
    simp only [List.countP_cons, List.length_cons]
    push_cast
    rcases size_bucket_cases c.stats with h | h | h | h <;>
      · simp only [h]
        simp
        omega

/-- C2: the mapping counts sum back to the total: the twelve
`commits_by_type` counts sum to `total_commits`, the four
`size_distribution` bucket counts sum to `total_commits` while every
other key reads 0, and every count in every mapping is non-negative. -/
theorem calculate_count_invariants (l : List Commit) :
    (∑ t : CommitType, (calcOf l).commits_by_type t) = ((calcOf l).total_commits : Int) ∧
    ((calcOf l).size_distribution "small" + (calcOf l).size_distribution "medium"
      + (calcOf l).size_distribution "large" + (calcOf l).size_distribution "xlarge")
        = ((calcOf l).total_commits : Int) ∧
    (∀ k : String, k ≠ "small" → k ≠ "medium" → k ≠ "large" → k ≠ "xlarge" →
      (calcOf l).size_distribution k = 0) ∧
    (∀ t, 0 ≤ (calcOf l).commits_by_type t) ∧
    (∀ k, 0 ≤ (calcOf l).commits_by_author k) ∧
    (∀ k, 0 ≤ (calcOf l).commits_by_day k) ∧
    (∀ k, 0 ≤ (calcOf l).commits_by_hour k) ∧
    (∀ p, 0 ≤ (calcOf l).commits_by_phase p) ∧
    (∀ k, 0 ≤ (calcOf l).size_distribution k) := by
  refine ⟨?_, ?_, ?_, ?_, ?_, ?_, ?_, ?_, ?_⟩
  · rw [calcOf_total_commits]
    calc (∑ t : CommitType, (calcOf l).commits_by_type t)
        = ∑ t : CommitType, (l.countP (fun c => c.commit_type = t) : Int) := by
          refine Finset.sum_congr rfl fun t _ => calcOf_commits_by_type l t
      _ = l.length := sum_countP_type l
  · rw [calcOf_total_commits, calcOf_size_distribution, calcOf_size_distribution,
      calcOf_size_distribution, calcOf_size_distribution]
    exact sum_size_buckets l
  · intro k h1 h2 h3 h4
    rw [calcOf_size_distribution]
    have hz : l.countP (fun c => c.stats.size_bucket = k) = 0 := by
      rw [List.countP_eq_zero]
      intro c _
      rcases size_bucket_cases c.stats with h | h | h | h <;>
        simp only [h, decide_eq_true_eq] <;>
        first
          | exact fun hh => h1 hh.symm
          | exact fun hh => h2 hh.symm
          | exact fun hh => h3 hh.symm
          | exact fun hh => h4 hh.symm
    exact_mod_cast hz
  · intro t
    rw [calcOf_commits_by_type]
    exact Int.natCast_nonneg _
  · intro k
    rw [calcOf_commits_by_author]
    exact Int.natCast_nonneg _
  · intro k
    rw [calcOf_commits_by_day]
    exact Int.natCast_nonneg _
  · intro k
    rw [calcOf_commits_by_hour]
    exact Int.natCast_nonneg _
  · intro p
    rw [calcOf_commits_by_phase]
    exact Int.natCast_nonneg _
  · intro k
    rw [calcOf_size_distribution]
    exact Int.natCast_nonneg _

/-- Witness for C2 at a concrete list and a key outside the buckets. -/
theorem calculate_count_invariants_witness :
    ("tiny" : String) ≠ "small" ∧ (calcOf [exA, exB]).size_distribution "tiny" = 0 :=
  ⟨by decide, (calculate_count_invariants [exA, exB]).2.2.1 "tiny"
    (by decide) (by decide) (by decide) (by decide)⟩

theorem intDeltas_sum_telescope (xs : List Int) : ∀ x : Int,
    (intDeltas (x :: xs)).sum = xs.getLastD x - x := by
  induction xs with
  | nil => intro x; simp [intDeltas]
  | cons y ys ih =>
    intro x
    simp only [intDeltas, List.sum_cons, List.getLastD_cons, ih y]
    ring

theorem foldl_min_le_init (xs : List Int) : ∀ a : Int, xs.foldl min a ≤ a := by
  induction xs with
  | nil => intro a; exact le_refl a
  | cons y ys ih =>
    intro a
    calc ((y :: ys : List Int).foldl min a) = ys.foldl min (min a y) := rfl
      _ ≤ min a y := ih _
      _ ≤ a := min_le_left _ _

theorem foldl_min_le_mem (xs : List Int) : ∀ (a y : Int), y ∈ xs → xs.foldl min a ≤ y := by
  induction xs with
  | nil => intro a y hy; cases hy
  | cons z zs ih =>
    intro a y hy
    rcases List.mem_cons.mp hy with rfl | hy2
    · calc (zs.foldl min (min a y)) ≤ min a y := foldl_min_le_init _ _
        _ ≤ y := min_le_right _ _
    · exact ih (min a z) y hy2

theorem foldl_min_mem (xs : List Int) : ∀ a : Int,
    xs.foldl min a = a ∨ xs.foldl min a ∈ xs := by
  induction xs with
  | nil => intro a; exact Or.inl rfl
  | cons y ys ih =>
    intro a
    rcases ih (min a y) with h | h
    · rcases min_choice a y with hm | hm
      · exact Or.inl (by rw [List.foldl_cons, h, hm])
      · refine Or.inr ?_
        rw [List.foldl_cons, h, hm]
        exact List.mem_cons_self _ _
    · exact Or.inr (List.mem_cons_of_mem _ h)

theorem foldl_max_init_le (xs : List Int) : ∀ a : Int, a ≤ xs.foldl max a := by
  induction xs with
  | nil => intro a; exact le_refl a
  | cons y ys ih =>
    intro a
    calc a ≤ max a y := le_max_left _ _
      _ ≤ ys.foldl max (max a y) := ih _
      _ = (y :: ys : List Int).foldl max a := rfl

theorem foldl_max_mem_le (xs : List Int) : ∀ (a y : Int), y ∈ xs → y ≤ xs.foldl max a := by
  induction xs with
  | nil => intro a y hy; cases hy
  | cons z zs ih =>
    intro a y hy
    rcases List.mem_cons.mp hy with rfl | hy2
    · calc y ≤ max a y := le_max_right _ _
        _ ≤ zs.foldl max (max a y) := foldl_max_init_le _ _
    · exact ih (max a z) y hy2

theorem foldl_max_mem (xs : List Int) : ∀ a : Int,
    xs.foldl max a = a ∨ xs.foldl max a ∈ xs := by
  induction xs with
  | nil => intro a; exact Or.inl rfl
  | cons y ys ih =>
    intro a
    rcases ih (max a y) with h | h
    · rcases max_choice a y with hm | hm
      · exact Or.inl (by rw [List.foldl_cons, h, hm])
      · refine Or.inr ?_
        rw [List.foldl_cons, h, hm]
        exact List.mem_cons_self _ _
    · exact Or.inr (List.mem_cons_of_mem _ h)

theorem getLastD_mem_or (xs : List Int) : ∀ a : Int,
    xs.getLastD a = a ∨ xs.getLastD a ∈ xs := by
  induction xs with
  | nil => intro a; exact Or.inl rfl
  | cons y ys ih =>
    intro a
    rw [List.getLastD_cons]
    rcases ih y with h | h
    · refine Or.inr ?_
      rw [h]
      exact List.mem_cons_self _ _
    · exact Or.inr (List.mem_cons_of_mem _ h)

theorem sorted_le_getLastD (xs : List Int) : ∀ a : Int,
    List.Sorted (· ≤ ·) (a :: xs) → ∀ y ∈ a :: xs, y ≤ xs.getLastD a := by
  induction xs with
  | nil =>
    intro a _ y hy
    rcases List.mem_singleton.mp hy with rfl
    exact le_refl y
  | cons z zs ih =>
    intro a hs y hy
    rw [List.getLastD_cons]
    have hs2 : List.Sorted (· ≤ ·) (z :: zs) := (List.sorted_cons.mp hs).2
    have haz : a ≤ z := (List.sorted_cons.mp hs).1 z (List.mem_cons_self _ _)
    rcases List.mem_cons.mp hy with rfl | hy2
    · exact le_trans haz (ih z hs2 z (List.mem_cons_self _ _))
    · exact ih z hs2 y hy2

theorem sorted_head_le (xs : List Int) (a : Int)
    (hs : List.Sorted (· ≤ ·) (a :: xs)) : ∀ y ∈ a :: xs, a ≤ y := by
  intro y hy
  rcases List.mem_cons.mp hy with rfl | hy2
  · exact le_refl y
  · exact (List.sorted_cons.mp hs).1 y hy2

theorem minStamp_eq_head (l : List Commit) (h : l ≠ []) :
    minStamp l = (sortedStamps l).headD 0 := by
  have hperm := sortedStamps_perm l
  cases hm : l.map tsv with
  | nil => exact absurd (List.map_eq_nil_iff.mp hm) h
  | cons x xs =>
    cases hs : sortedStamps l with
    | nil =>
      rw [hs, hm] at hperm
      exact absurd hperm.length_eq (by simp)
    | cons b bs =>
      have hmin : minStamp l = xs.foldl min x := by
        simp [minStamp, hm]
      have hsorted : List.Sorted (· ≤ ·) (b :: bs) := by
        rw [← hs]
        exact sortedStamps_sorted l
      have hmemperm : ∀ y : Int, y ∈ b :: bs ↔ y ∈ x :: xs := by
        intro y
        rw [← hs, ← hm]
        exact hperm.mem_iff
      have hbmem : b ∈ x :: xs := (hmemperm b).mp (List.mem_cons_self _ _)
      have hm1mem : xs.foldl min x ∈ x :: xs := by
        rcases foldl_min_mem xs x with hh | hh
        · rw [hh]; exact List.mem_cons_self _ _
        · exact List.mem_cons_of_mem _ hh
      have h1 : xs.foldl min x ≤ b := by
        rcases List.mem_cons.mp hbmem with rfl | hb2
        · exact foldl_min_le_init _ _
        · exact foldl_min_le_mem _ _ _ hb2
      have h2 : b ≤ xs.foldl min x :=
        sorted_head_le bs b hsorted _ ((hmemperm _).mpr hm1mem)
      rw [hmin]
      exact le_antisymm h1 h2

theorem maxStamp_eq_getLastD (l : List Commit) (h : l ≠ []) :
    maxStamp l = (sortedStamps l).getLastD 0 := by
  have hperm := sortedStamps_perm l
  cases hm : l.map tsv with
  | nil => exact absurd (List.map_eq_nil_iff.mp hm) h
  | cons x xs =>
    cases hs : sortedStamps l with
    | nil =>
      rw [hs, hm] at hperm
      exact absurd hperm.length_eq (by simp)
    | cons b bs =>
      have hmax : maxStamp l = xs.foldl max x := by
        simp [maxStamp, hm]
      have hsorted : List.Sorted (· ≤ ·) (b :: bs) := by
        rw [← hs]
        exact sortedStamps_sorted l
      have hmemperm : ∀ y : Int, y ∈ b :: bs ↔ y ∈ x :: xs := by
        intro y
        rw [← hs, ← hm]
        exact hperm.mem_iff
      have hlastmem : bs.getLastD b ∈ x :: xs := by
        refine (hmemperm _).mp ?_
        rcases getLastD_mem_or bs b with hh | hh
        · rw [hh]; exact List.mem_cons_self _ _
        · exact List.mem_cons_of_mem _ hh
      have hm1mem : xs.foldl max x ∈ x :: xs := by
        rcases foldl_max_mem xs x with hh | hh
        · rw [hh]; exact List.mem_cons_self _ _
        · exact List.mem_cons_of_mem _ hh
      have h1 : bs.getLastD b ≤ xs.foldl max x := by
        rcases List.mem_cons.mp hlastmem with heq | hb2
        · rw [heq]; exact foldl_max_init_le _ _
        · exact foldl_max_mem_le _ _ _ hb2
      have h2 : xs.foldl max x ≤ bs.getLastD b :=
        sorted_le_getLastD bs b hsorted _ ((hmemperm _).mpr hm1mem)
      rw [hmax, List.getLastD_cons]
      exact le_antisymm h2 h1

/-- C10: for N ≥ 2 commits the consecutive sorted deltas telescope, so
the average interval equals (maximum − minimum timestamp) in seconds
divided by (N−1)·3600; consequently any two inputs with the same
length, minimum and maximum have the same average interval. -/
theorem avg_interval_telescopes (l : List Commit) (h : 2 ≤ l.length) :
    (calcOf l).avg_commit_interval_hours
      = ((maxStamp l - minStamp l : Int) : ℚ) / (((l.length : ℚ) - 1) * 3600) ∧
    ∀ l2 : List Commit, l2.length = l.length → minStamp l2 = minStamp l →
      maxStamp l2 = maxStamp l →
      (calcOf l2).avg_commit_interval_hours = (calcOf l).avg_commit_interval_hours := by
  have main : ∀ m : List Commit, 2 ≤ m.length →
      (calcOf m).avg_commit_interval_hours
        = ((maxStamp m - minStamp m : Int) : ℚ) / (((m.length : ℚ) - 1) * 3600) := by
    intro m hm
    rw [(avg_interval_spec m).2 hm]
    have hne : m ≠ [] := by
      intro hh
      rw [hh] at hm
      exact absurd hm (by decide)
    cases hs : sortedStamps m with
    | nil =>
      have := (sortedStamps_perm m).length_eq
      rw [hs] at this
      have hml : m.length = 0 := by
        simpa using this.symm
      omega
    | cons b bs =>
      rw [intDeltas_sum_telescope bs b, minStamp_eq_head m hne,
        maxStamp_eq_getLastD m hne, hs, List.getLastD_cons]
      have hhead : ((b :: bs : List Int).headD 0) = b := rfl
      rw [hhead, div_div]
  refine ⟨main l h, fun l2 hlen hmin hmax => ?_⟩
  have h2 : 2 ≤ l2.length := by omega
  rw [main l2 h2, main l h, hlen, hmin, hmax]

/-- Witness for C10: moving the middle commit of a three-commit list
within the [min, max] range leaves the average interval unchanged. -/
theorem avg_interval_telescopes_witness :
    2 ≤ ([exCommit 0 0, exCommit 3600 0, exCommit 14400 0] : List Commit).length ∧
    (calcOf [exCommit 0 0, exCommit 9000 0, exCommit 14400 0]).avg_commit_interval_hours
      = (calcOf [exCommit 0 0, exCommit 3600 0, exCommit 14400 0]).avg_commit_interval_hours := by
  refine ⟨by decide, ?_⟩
  exact (avg_interval_telescopes [exCommit 0 0, exCommit 3600 0, exCommit 14400 0]
    (by decide)).2 [exCommit 0 0, exCommit 9000 0, exCommit 14400 0]
    (by decide) (by decide) (by decide)

/-- Counterexample to C5 as stated: a commit whose timestamp carries a
+02:00 offset (absolute time 1970-01-01 23:00 UTC, wall clock
1970-01-02 01:00) is bucketed under its wall-clock date and hour, not
under the UTC rendering the claim requires. -/
theorem day_hour_bucketing_counterexample :
    (calcOf [exOffset]).commits_by_day (utcDayKey exOffset.timestamp) = 0 ∧
    (calcOf [exOffset]).commits_by_hour (utcHour exOffset.timestamp) = 0 ∧
    (calcOf [exOffset]).commits_by_day (exOffset.timestamp.dayKey) = 1 ∧
    (calcOf [exOffset]).commits_by_hour (exOffset.timestamp.hour) = 1 := by
  refine ⟨?_, ?_, ?_, ?_⟩ <;> decide

/-- C5 (amended): the key incremented in `commits_by_day` is the civil
date of the timestamp's carried wall-clock reading and the key in
`commits_by_hour` its wall-clock hour; when every timestamp carries a
zero UTC offset — as all timestamps built by the repository layer do —
these coincide with the UTC date and UTC hour. -/
theorem day_hour_bucketing (l : List Commit) (d : Int × Int × Int) (hr : Int) :
    ((calcOf l).commits_by_day d
      = (l.countP (fun c => c.timestamp.dayKey = d) : Int)) ∧
    ((calcOf l).commits_by_hour hr
      = (l.countP (fun c => c.timestamp.hour = hr) : Int)) ∧
    ((∀ c ∈ l, c.timestamp.offSec = 0) →
      ((calcOf l).commits_by_day d
        = (l.countP (fun c => utcDayKey c.timestamp = d) : Int)) ∧
      ((calcOf l).commits_by_hour hr
        = (l.countP (fun c => utcHour c.timestamp = hr) : Int))) := by
  refine ⟨calcOf_commits_by_day l d, calcOf_commits_by_hour l hr, fun hoff => ⟨?_, ?_⟩⟩
  · rw [calcOf_commits_by_day]
    congr 1
    refine List.countP_congr fun c hc => ?_
    have h0 : c.timestamp.offSec = 0 := hoff c hc
    simp only [Timestamp.dayKey, utcDayKey, Timestamp.localSec, h0, add_zero]
  · rw [calcOf_commits_by_hour]
    congr 1
    refine List.countP_congr fun c hc => ?_
    have h0 : c.timestamp.offSec = 0 := hoff c hc
    simp only [Timestamp.hour, utcHour, Timestamp.localSec, h0, add_zero]

/-- Witness for the amended C5 at a UTC-offset-zero commit at
1970-01-01 23:00 UTC. -/
theorem day_hour_bucketing_witness :
    (∀ c ∈ ([exCommit 82800 0] : List Commit), c.timestamp.offSec = 0) ∧
    (calcOf [exCommit 82800 0]).commits_by_day (1970, 1, 1) = 1 ∧
    (calcOf [exCommit 82800 0]).commits_by_hour 23 = 1 := by
  refine ⟨by decide, ?_, ?_⟩
  · rw [((day_hour_bucketing [exCommit 82800 0] (1970, 1, 1) 23).2.2 (by decide)).1]
    decide
  · rw [((day_hour_bucketing [exCommit 82800 0] (1970, 1, 1) 23).2.2 (by decide)).2]
    decide

/-- Counterexample to C8 as stated: the message " quick fix" has a
first line matching nothing, yet the parsed subject is the stripped
"quick fix" rather than the raw first line " quick fix". -/
theorem parse_fallback_counterexample :
    matchConventional (rawFirstLine " quick fix".toList) = none ∧
    (parse " quick fix".toList).commit_type = CommitType.unknown ∧
    (parse " quick fix".toList).subject ≠ rawFirstLine " quick fix".toList := by
  refine ⟨?_, ?_, ?_⟩ <;> decide

/-- C8 (amended): `parse` is a total function; empty or whitespace-only
input yields the all-default record; and when the normalized first line
(the message stripped of surrounding whitespace, split at newlines,
first line stripped again) does not match the conventional pattern, the
result has unknown type, no scope, is not conventional, and its subject
is that normalized first line. -/
theorem parse_fallback (m : List Char) :
    (strip m = [] → parse m = defaultParsed) ∧
    (strip m ≠ [] →
      matchConventional (strip ((splitNl (strip m)).headD [])) = none →
      (parse m).commit_type = CommitType.unknown ∧
      (parse m).scope = none ∧
      (parse m).is_conventional = false ∧
      (parse m).subject = strip ((splitNl (strip m)).headD [])) := by
  constructor
  · intro h
    simp [parse, h]
  · intro h1 h2
    have hie : (strip m).isEmpty = false := by
      cases hsm : strip m with
      | nil => exact absurd hsm h1
      | cons a t => rfl
    have h3 := h2
    simp only [List.headD_eq_head?_getD] at h3
    simp [parse, hie, h3]

/-- Witness for C8: the empty message yields all defaults, and
"quick fix" yields an unknown, non-conventional parse whose subject is
the whole first line. -/
theorem parse_fallback_witness :
    (strip [] = [] ∧ parse [] = defaultParsed) ∧
    (strip "quick fix".toList ≠ [] ∧
      (parse "quick fix".toList).subject
        = strip ((splitNl (strip "quick fix".toList)).headD [])) :=
  ⟨⟨rfl, (parse_fallback []).1 rfl⟩,
   ⟨by decide, ((parse_fallback "quick fix".toList).2 (by decide) (by decide)).2.2.2⟩⟩

/-- C9 (the `SentimentResult` dataclass body is absent from the
sources and is modelled from the spec): every result produced by the
enrichment — through the parsed-items path or the parse-failure
fallback — has a sentiment label in {positive, neutral, negative} and a
confidence in [0, 1], and any label outside that set is normalized to
neutral. -/
theorem sentiment_normalized :
    (∀ r : SentimentResult,
      ((∃ items, r ∈ parseItems items) ∨ (∃ shas, r ∈ fallbackResults shas)) →
      (r.sentiment = "positive" ∨ r.sentiment = "neutral" ∨ r.sentiment = "negative") ∧
      0 ≤ r.confidence ∧ r.confidence ≤ 1) ∧
    (∀ (sha lbl : String) (conf : ℚ) (tone summary : String),
      ¬(lbl = "positive" ∨ lbl = "neutral" ∨ lbl = "negative") →
      (mkSentimentResult sha lbl conf tone summary).sentiment = "neutral") := by
  have hmk : ∀ (sha lbl : String) (conf : ℚ) (tone summary : String),
      ((mkSentimentResult sha lbl conf tone summary).sentiment = "positive"
        ∨ (mkSentimentResult sha lbl conf tone summary).sentiment = "neutral"
        ∨ (mkSentimentResult sha lbl conf tone summary).sentiment = "negative") ∧
      0 ≤ (mkSentimentResult sha lbl conf tone summary).confidence ∧
      (mkSentimentResult sha lbl conf tone summary).confidence ≤ 1 := by
    intro sha lbl conf tone summary
    refine ⟨?_, le_max_left _ _, max_le (by norm_num) (min_le_left _ _)⟩
    simp only [mkSentimentResult]
    by_cases h : lbl = "positive" ∨ lbl = "neutral" ∨ lbl = "negative"
    · rw [if_pos h]
      exact h
    · rw [if_neg h]
      exact Or.inr (Or.inl rfl)
  constructor
  · rintro r (⟨items, hr⟩ | ⟨shas, hr⟩)
    · obtain ⟨it, _, rfl⟩ := List.mem_map.mp hr
      exact hmk _ _ _ _ _
    · obtain ⟨sh, _, rfl⟩ := List.mem_map.mp hr
      exact hmk _ _ _ _ _
  · intro sha lbl conf tone summary h
    simp only [mkSentimentResult, if_neg h]

/-- Witness for C9 at an out-of-range item: label "invalid" and
confidence 1.5. -/
theorem sentiment_normalized_witness :
    ((mkSentimentResult "ab" "invalid" (3 / 2) "tone" "sum").sentiment = "positive"
      ∨ (mkSentimentResult "ab" "invalid" (3 / 2) "tone" "sum").sentiment = "neutral"
      ∨ (mkSentimentResult "ab" "invalid" (3 / 2) "tone" "sum").sentiment = "negative") ∧
    0 ≤ (mkSentimentResult "ab" "invalid" (3 / 2) "tone" "sum").confidence ∧
    (mkSentimentResult "ab" "invalid" (3 / 2) "tone" "sum").confidence ≤ 1 :=
  sentiment_normalized.1 _
    (Or.inl ⟨[⟨"ab", "invalid", 3 / 2, "tone", "sum"⟩], List.mem_singleton.mpr rfl⟩)

end Crumbs
